import Mathlib

/-!
Shallow embedding of the `wmi` header-only library (`include/wmi/wmi.hxx`):
the variant converters, `Object::GetProperty`, and the batching
`QueryResult::Iterator` state machine, together with proofs of the
specification's claims about them.
-/

namespace wmi

/-! ### Variant model

A COM `VARIANT` is a dynamically tagged union.  We model the tag `vt` as a
natural number and keep the two payload fields the converters inspect:
`bstrVal` (an `Option String`, `none` standing for a null `BSTR` pointer) and
`parray` (an optional list of optional strings; `none` stands for a safe-array
whose `Attach` call throws, `some es` for an array whose elements are the
possibly-null `BSTR`s `es`).  `ConvertBSTRToString` decoding is modelled as the
identity on `String`. -/

/-- The `VT_BSTR` tag value (8). -/
def VT_BSTR : Nat := 8

/-- The `VT_ARRAY` flag (0x2000). -/
def VT_ARRAY : Nat := 8192

/-- The tag `VT_ARRAY | VT_BSTR` of a safe array of `BSTR`. -/
def VT_ARRAY_BSTR : Nat := VT_ARRAY ||| VT_BSTR

/-- Model of `CComVariant`: the tag plus the payload fields read by the
converters in `wmi.hxx`. -/
structure CComVariant where
  vt : Nat
  bstrVal : Option String
  parray : Option (List (Option String))
deriving DecidableEq

/-- `ConvertBstrToString` (wmi.hxx:57-62): returns the decoded string iff
`variant.vt == VT_BSTR && variant.bstrVal` (payload non-null), else `nullopt`. -/
def ConvertBstrToString (variant : CComVariant) : Option String :=
  if variant.vt = VT_BSTR then variant.bstrVal else none

/-- Outcome of the C++ expression `static_cast<T>(variant_t(variant))` inside
the generic `ConvertVariant` (wmi.hxx:117-135): either a value, or one of the
three kinds of exception its `catch` clauses distinguish (`_com_error`,
`std::exception`, or anything else). -/
inductive CastResult (β : Type) where
  | ok (val : β)
  | comError (code : Nat)
  | stdError (msg : String)
  | unknownError
deriving DecidableEq

/-- Generic `ConvertVariant<T>` (wmi.hxx:117-135): attempt the cast, catch all
three exception kinds and downgrade each to `nullopt`.  The cast itself is
passed in as a function, since the C++ behaviour of `static_cast<T>(variant_t)`
depends on the target type `T`. -/
def ConvertVariant (cast : CComVariant → CastResult β) (variant : CComVariant) :
    Option β :=
  match cast variant with
  | CastResult.ok v => some v
  | CastResult.comError _ => none
  | CastResult.stdError _ => none
  | CastResult.unknownError => none

/-- The `ConvertVariant<std::string>` specialization (wmi.hxx:143-147):
delegates to `ConvertBstrToString`. -/
def ConvertVariantString (variant : CComVariant) : Option String :=
  ConvertBstrToString variant

/-- The `ConvertVariant<std::vector<std::string>>` specialization
(wmi.hxx:155-184): requires tag `VT_ARRAY | VT_BSTR`; a throwing
`CComSafeArray::Attach` (modelled by `parray = none`) yields `nullopt`;
otherwise every non-null element is decoded in order (`if (auto bstr = ...)`
skips null entries). -/
def ConvertVariantVecString (variant : CComVariant) : Option (List String) :=
  if variant.vt ≠ VT_ARRAY_BSTR then none
  else
    match variant.parray with
    | none => none
    | some elems => some (elems.filterMap id)

/-! ### Property objects -/

/-- Model of `IWbemClassObject`: its `Get` method looks a property name up and
either fails (a `FAILED` HRESULT, modelled `none`) or produces a variant. -/
structure IWbemClassObject where
  Get : String → Option CComVariant

/-- Model of `wmi::Object` (wmi.hxx:191-225).  The `iface_` member is a
`shared_ptr` kept only to pin the connection's lifetime; it has no observable
behaviour, so it is omitted. -/
structure Object where
  object_ : IWbemClassObject

/-- `Object::GetProperty<T>` for `T != variant_t` (wmi.hxx:206-220): a failed
lookup yields `nullopt`; a successful lookup delegates to `ConvertVariant<T>`,
passed here as the converter `conv`. -/
def Object.GetProperty (o : Object) (name : String)
    (conv : CComVariant → Option β) : Option β :=
  match o.object_.Get name with
  | none => none
  | some variant => conv variant

/-- `Object::GetProperty<variant_t>` (wmi.hxx:206-220, the
`if constexpr (std::is_same_v<T, variant_t>)` branch): a failed lookup yields
`nullopt`; a successful lookup returns the variant unconverted. -/
def Object.GetPropertyVariant (o : Object) (name : String) :
    Option CComVariant :=
  match o.object_.Get name with
  | none => none
  | some variant => some variant

/-! ### Enumerator and batch iterator

`IEnumWbemClassObject` is a stateful remote cursor over a fixed backing store.
We model it as the full record list plus the cursor position; `failAt = some k`
injects a remote fault into the `Next` call issued while the cursor stands at
position `k` (used to study fetch-failure behaviour).  The record type is kept
as a parameter `α` standing for `wmi::Object`, which the iterator never
inspects. -/

/-- Model of a remote `IEnumWbemClassObject` cursor. -/
structure Enumerator (α : Type) where
  records : List α
  pos : Nat
  failAt : Option Nat
deriving DecidableEq

/-- `IEnumWbemClassObject::Next(WBEM_INFINITE, count, ...)`: fails (`none`,
modelling a `FAILED` HRESULT) when the injected fault is at the current
position, else returns up to `count` records from the cursor and advances it. -/
def Enumerator.Next (e : Enumerator α) (count : Nat) :
    Option (List α) × Enumerator α :=
  if e.failAt = some e.pos then (none, e)
  else
    (some ((e.records.drop e.pos).take count),
     ⟨e.records, e.pos + ((e.records.drop e.pos).take count).length, e.failAt⟩)

/-- `IEnumWbemClassObject::Reset`: move the cursor back to the start. -/
def Enumerator.Reset (e : Enumerator α) : Enumerator α :=
  ⟨e.records, 0, e.failAt⟩

/-- The fixed batch request size of the reference implementation
(`Iterator::BATCH_SIZE`, wmi.hxx:244). -/
def BATCH_SIZE : Nat := 10

/-- Model of `QueryResult::Iterator` (wmi.hxx:236-317): the cursor reference
(null possible), the current in-memory batch, the index into it, and the
end-of-sequence flag. -/
structure Iterator (α : Type) where
  enumerator : Option (Enumerator α)
  batch : List α
  current_index : Nat
  is_end : Bool
deriving DecidableEq

/-- `Iterator::FetchNextBatch` (wmi.hxx:291-316), generalized over the batch
request size `B` (the source fixes `B = BATCH_SIZE`): clear the batch and the
index; a null cursor, a failed `Next`, or zero returned records sets
`is_end`; otherwise the returned records become the new batch. -/
def Iterator.FetchNextBatch (B : Nat) (it : Iterator α) : Iterator α :=
  match it.enumerator with
  | none => ⟨none, [], 0, true⟩
  | some e =>
    match e.Next B with
    | (none, e2) => ⟨some e2, [], 0, true⟩
    | (some objs, e2) =>
      if objs.length = 0 then ⟨some e2, [], 0, true⟩
      else ⟨some e2, objs, 0, it.is_end⟩

/-- The `Iterator` constructor (wmi.hxx:246-255): starts with an empty batch
and index 0; when not an end sentinel and the cursor is non-null it
immediately fetches the first batch. -/
def Iterator.mkIter (B : Nat) (enumerator : Option (Enumerator α))
    (is_end : Bool) : Iterator α :=
  if is_end then ⟨enumerator, [], 0, is_end⟩
  else if enumerator.isSome then
    Iterator.FetchNextBatch B ⟨enumerator, [], 0, is_end⟩
  else ⟨enumerator, [], 0, is_end⟩

/-- `Iterator::operator*` (wmi.hxx:257): the unchecked access
`batch_[current_index_]`, embedded as an optional lookup whose `none` branch
corresponds to an out-of-bounds access. -/
def Iterator.deref (it : Iterator α) : Option α :=
  it.batch[it.current_index]?

/-- `Iterator::operator++` (wmi.hxx:261-272), generalized over the batch size
`B`: a no-op when `is_end_` is set; otherwise increment the index and fetch the
next batch once the index reaches the batch's size. -/
def Iterator.inc (B : Nat) (it : Iterator α) : Iterator α :=
  if it.is_end then it
  else
    if it.batch.length ≤ it.current_index + 1 then
      Iterator.FetchNextBatch B
        ⟨it.enumerator, it.batch, it.current_index + 1, it.is_end⟩
    else ⟨it.enumerator, it.batch, it.current_index + 1, it.is_end⟩

/-- `Iterator::operator==` (wmi.hxx:280): compares only the two
end-of-sequence flags. -/
def Iterator.beq (a b : Iterator α) : Bool :=
  a.is_end == b.is_end

/-- Model of `QueryResult` (wmi.hxx:232-347): the shared cursor handle
(null possible).  The `iface_` lifetime token is omitted as in `Object`. -/
structure QueryResult (α : Type) where
  enumerator : Option (Enumerator α)

/-- `QueryResult::begin` (wmi.hxx:330-335), generalized over the batch size
`B`: reset the cursor when non-null, then construct a non-end iterator on it. -/
def QueryResult.begin (B : Nat) (q : QueryResult α) : Iterator α :=
  match q.enumerator with
  | some e => Iterator.mkIter B (some e.Reset) false
  | none => Iterator.mkIter B none false

/-- `QueryResult::end` (wmi.hxx:342): the end sentinel, bound to no cursor. -/
def QueryResult.end_ (_q : QueryResult α) : Iterator α :=
  Iterator.mkIter BATCH_SIZE none true

/-- The observable iteration sequence: the standard consumer loop
`for (it = begin(); it != end(); ++it) use(*it)`.  By `Iterator.beq`,
`it != end()` is exactly `it.is_end = false`.  `fuel` bounds the number of
loop steps (the C++ loop has no such bound; any `fuel` larger than the result
count is enough, as the theorems show).  A `none` dereference (the embedding's
image of the out-of-bounds access) stops the loop. -/
def collect (B : Nat) : Nat → Iterator α → List α
  | 0, _ => []
  | fuel + 1, it =>
    if it.is_end then []
    else
      match it.deref with
      | none => []
      | some x => x :: collect B fuel (Iterator.inc B it)

/-- Iteration invariant tying an in-flight iterator over the backing store `L`
to the list `rem` of records it has yet to yield: either the iterator is
exhausted and nothing remains, or it is mid-batch with a valid index and the
remainder splits into the unread tail of the batch followed by the unread tail
of the store. -/
def Inv (B : Nat) (L : List α) (it : Iterator α) (rem : List α) : Prop :=
  (it.is_end = true ∧ rem = []) ∨
  (∃ (p idx : Nat) (batch : List α),
    it = ⟨some ⟨L, p, none⟩, batch, idx, false⟩ ∧
    idx < batch.length ∧ p ≤ L.length ∧
    rem = List.drop idx batch ++ List.drop p L)

/-! Concrete sample iterators used to exhibit the behaviour of
`Iterator.beq` on two distinct non-exhausted iterators. -/

/-- A fresh, non-exhausted iterator over the three-record store `[1, 2, 3]`. -/
def iterA : Iterator Nat :=
  QueryResult.begin 10 ⟨some ⟨[1, 2, 3], 0, none⟩⟩

/-- A fresh, non-exhausted iterator over the single-record store `[7]` —
a different cursor than `iterA`. -/
def iterB : Iterator Nat :=
  QueryResult.begin 10 ⟨some ⟨[7], 0, none⟩⟩

/-- An object whose every property lookup fails. -/
def emptyObject : Object :=
  ⟨⟨fun _ => none⟩⟩

/-- An object whose every property lookup succeeds with the string `"C:"`. -/
def presentObject : Object :=
  ⟨⟨fun _ => some ⟨VT_BSTR, some "C:", none⟩⟩⟩

/-! ### Helper lemmas -/

lemma take_append_drop_length (B : Nat) (M : List α) :
    M.take B ++ M.drop (M.take B).length = M := by
  rcases Nat.le_total B M.length with h | h
  · rw [List.length_take, Nat.min_eq_left h, List.take_append_drop]
  · rw [List.length_take, Nat.min_eq_right h, List.drop_length, List.append_nil,
      List.take_of_length_le h]

lemma collect_of_is_end (B fuel : Nat) (it : Iterator α) (h : it.is_end = true) :
    collect B fuel it = [] := by
  cases fuel with
  | zero => rfl
  | succ f => simp [collect, h]

lemma inc_active (B : Nat) (en : Option (Enumerator α)) (batch : List α)
    (idx : Nat) :
    Iterator.inc B ⟨en, batch, idx, false⟩ =
      if batch.length ≤ idx + 1 then
        Iterator.FetchNextBatch B ⟨en, batch, idx + 1, false⟩
      else ⟨en, batch, idx + 1, false⟩ := by
  unfold Iterator.inc
  simp

lemma fetch_no_fail (B : Nat) (L : List α) (p : Nat) (batch : List α)
    (idx : Nat) (b : Bool) :
    Iterator.FetchNextBatch B ⟨some ⟨L, p, none⟩, batch, idx, b⟩ =
      if ((L.drop p).take B).length = 0 then
        ⟨some ⟨L, p + ((L.drop p).take B).length, none⟩, [], 0, true⟩
      else
        ⟨some ⟨L, p + ((L.drop p).take B).length, none⟩, (L.drop p).take B, 0, b⟩ := by
  unfold Iterator.FetchNextBatch Enumerator.Next
  simp

lemma inv_step {B : Nat} {L : List α} (hB : 1 ≤ B) {it : Iterator α} {x : α}
    {rem : List α} (h : Inv B L it (x :: rem)) :
    it.is_end = false ∧ it.deref = some x ∧ Inv B L (Iterator.inc B it) rem := by
  rcases h with ⟨_, hrem⟩ | ⟨p, idx, batch, hit, hidx, hp, hrem⟩
  · exact absurd hrem (by simp)
  · subst hit
    have hd : List.drop idx batch = batch[idx] :: List.drop (idx + 1) batch :=
      List.drop_eq_getElem_cons hidx
    rw [hd, List.cons_append] at hrem
    obtain ⟨hx, hrest⟩ := List.cons.inj hrem
    refine ⟨rfl, ?_, ?_⟩
    · show batch[idx]? = some x
      rw [List.getElem?_eq_getElem hidx, hx]
    · rw [inc_active]
      by_cases hlen : batch.length ≤ idx + 1
      · rw [if_pos hlen, fetch_no_fail]
        have hdropb : List.drop (idx + 1) batch = [] :=
          List.drop_eq_nil_of_le hlen
        rw [hdropb, List.nil_append] at hrest
        by_cases hz : ((L.drop p).take B).length = 0
        · rw [if_pos hz]
          left
          refine ⟨rfl, ?_⟩
          rw [hrest]
          have h0 : (L.drop p).length = 0 := by
            rw [List.length_take] at hz
            omega
          exact List.length_eq_zero.mp h0
        · rw [if_neg hz]
          right
          refine ⟨p + ((L.drop p).take B).length, 0, (L.drop p).take B, rfl,
            Nat.pos_of_ne_zero hz, ?_, ?_⟩
          · have h1 := List.length_take_le' B (L.drop p)
            rw [List.length_drop] at h1
            omega
          · rw [hrest, List.drop_zero, ← List.drop_drop, take_append_drop_length]
      · rw [if_neg hlen]
        right
        exact ⟨p, idx + 1, batch, rfl, by omega, hp, hrest⟩

lemma collect_eq_of_inv {B : Nat} {L : List α} (hB : 1 ≤ B) :
    ∀ (rem : List α) (fuel : Nat) (it : Iterator α),
      Inv B L it rem → rem.length < fuel → collect B fuel it = rem := by
  intro rem
  induction rem with
  | nil =>
    intro fuel it h _
    rcases h with ⟨hend, _⟩ | ⟨p, idx, batch, hit, hidx, hp, hrem⟩
    · exact collect_of_is_end B fuel it hend
    · exfalso
      have h1 : (List.drop idx batch ++ List.drop p L).length = 0 := by
        rw [← hrem]
        rfl
      rw [List.length_append, List.length_drop, List.length_drop] at h1
      omega
  | cons x rem ih =>
    intro fuel it h hf
    obtain ⟨hend, hderef, hinv⟩ := inv_step hB h
    cases fuel with
    | zero => simp at hf
    | succ f =>
      simp only [collect, hend, hderef, Bool.false_eq_true, if_false]
      rw [ih f (Iterator.inc B it) hinv (by simp at hf; omega)]

lemma inv_begin {B : Nat} (hB : 1 ≤ B) (L : List α) (p : Nat) :
    Inv B L (QueryResult.begin B (⟨some ⟨L, p, none⟩⟩ : QueryResult α)) L := by
  have hb : QueryResult.begin B (⟨some ⟨L, p, none⟩⟩ : QueryResult α) =
      Iterator.FetchNextBatch B ⟨some ⟨L, 0, none⟩, [], 0, false⟩ := by
    unfold QueryResult.begin Iterator.mkIter Enumerator.Reset
    simp
  rw [hb, fetch_no_fail]
  by_cases hz : ((L.drop 0).take B).length = 0
  · rw [if_pos hz]
    left
    refine ⟨rfl, ?_⟩
    rw [List.drop_zero, List.length_take] at hz
    exact List.length_eq_zero.mp (by omega)
  · rw [if_neg hz]
    right
    refine ⟨0 + ((L.drop 0).take B).length, 0, (L.drop 0).take B, rfl,
      Nat.pos_of_ne_zero hz, ?_, ?_⟩
    · have h1 := List.length_take_le' B (L.drop 0)
      rw [List.length_drop] at h1
      omega
    · rw [List.drop_zero, Nat.zero_add, List.drop_zero, take_append_drop_length]

/-! ### Claim theorems -/

/-- Claim C1: for every batch size `B ≥ 1` and every backing store `L` of `N`
records (at any starting cursor position), iterating a `QueryResult` from
`begin()` to `end()` yields exactly the `N` records in the order the remote
enumerator returns them, and the batch size affects neither the count nor the
order of the yielded objects. -/
theorem batching_invisible_iteration {α : Type} (B B2 : Nat) (hB : 1 ≤ B)
    (hB2 : 1 ≤ B2) (L : List α) (p p2 : Nat) :
    collect B (L.length + 1)
      (QueryResult.begin B (⟨some ⟨L, p, none⟩⟩ : QueryResult α)) = L ∧
    collect B (L.length + 1)
      (QueryResult.begin B (⟨some ⟨L, p, none⟩⟩ : QueryResult α)) =
      collect B2 (L.length + 1)
        (QueryResult.begin B2 (⟨some ⟨L, p2, none⟩⟩ : QueryResult α)) := by
  have h1 := collect_eq_of_inv hB L (L.length + 1) _ (inv_begin hB L p)
    (by omega)
  have h2 := collect_eq_of_inv hB2 L (L.length + 1) _ (inv_begin hB2 L p2)
    (by omega)
  exact ⟨h1, h1.trans h2.symm⟩

theorem batching_invisible_iteration_witness :
    collect 3 6
      (QueryResult.begin 3
        (⟨some ⟨[10, 20, 30, 40, 50], 2, none⟩⟩ : QueryResult Nat)) =
      [10, 20, 30, 40, 50] ∧
    collect 3 6
      (QueryResult.begin 3
        (⟨some ⟨[10, 20, 30, 40, 50], 2, none⟩⟩ : QueryResult Nat)) =
      collect 10 6
        (QueryResult.begin 10
          (⟨some ⟨[10, 20, 30, 40, 50], 7, none⟩⟩ : QueryResult Nat)) :=
  batching_invisible_iteration 3 10 (by decide) (by decide)
    [10, 20, 30, 40, 50] 2 7

/-- Claim C2, counterexample: the claim says two non-exhausted iterators are
never equal, but `operator==` compares only the `is_end_` flags, so the two
fresh non-exhausted iterators `iterA` and `iterB` (over different cursors)
do compare equal. -/
theorem beq_counterexample :
    Iterator.beq iterA iterB = true ∧
    iterA.is_end = false ∧ iterB.is_end = false := by
  decide

/-- Claim C2, amended: `a == b` holds iff `a` and `b` have the same
end-of-sequence flag.  In particular two exhausted iterators compare equal and
a non-exhausted iterator never compares equal to the (exhausted) end sentinel,
but two non-exhausted iterators (over the same or different cursors) also
compare equal. -/
theorem beq_iff_same_is_end {α : Type} (a b : Iterator α) :
    Iterator.beq a b = true ↔ a.is_end = b.is_end := by
  unfold Iterator.beq
  exact beq_iff_eq

/-- Claim C3: `begin()` resets the remote cursor to its start before
constructing the iterator, so two successive calls to `begin()` (the shared
cursor standing at arbitrary positions `p1` and `p2`) produce two independent
passes yielding identical sequences over an unchanged backing store; `end()`
returns an exhausted sentinel iterator bound to no cursor. -/
theorem begin_resets_restartable {α : Type} (B : Nat) (hB : 1 ≤ B)
    (L : List α) (p1 p2 : Nat) (e : Enumerator α) (q : QueryResult α) :
    QueryResult.begin B (⟨some e⟩ : QueryResult α) =
      Iterator.mkIter B (some (Enumerator.Reset e)) false ∧
    (Enumerator.Reset e).pos = 0 ∧
    collect B (L.length + 1)
      (QueryResult.begin B (⟨some ⟨L, p1, none⟩⟩ : QueryResult α)) = L ∧
    collect B (L.length + 1)
      (QueryResult.begin B (⟨some ⟨L, p2, none⟩⟩ : QueryResult α)) = L ∧
    collect B (L.length + 1)
      (QueryResult.begin B (⟨some ⟨L, p1, none⟩⟩ : QueryResult α)) =
      collect B (L.length + 1)
        (QueryResult.begin B (⟨some ⟨L, p2, none⟩⟩ : QueryResult α)) ∧
    QueryResult.end_ q = ⟨none, [], 0, true⟩ := by
  have h1 := collect_eq_of_inv hB L (L.length + 1) _ (inv_begin hB L p1)
    (by omega)
  have h2 := collect_eq_of_inv hB L (L.length + 1) _ (inv_begin hB L p2)
    (by omega)
  exact ⟨rfl, rfl, h1, h2, h1.trans h2.symm, rfl⟩

theorem begin_resets_restartable_witness :
    QueryResult.begin 2 (⟨some ⟨[4, 5, 6], 2, none⟩⟩ : QueryResult Nat) =
      Iterator.mkIter 2 (some (Enumerator.Reset ⟨[4, 5, 6], 2, none⟩)) false ∧
    (Enumerator.Reset (⟨[4, 5, 6], 2, none⟩ : Enumerator Nat)).pos = 0 ∧
    collect 2 4
      (QueryResult.begin 2 (⟨some ⟨[4, 5, 6], 1, none⟩⟩ : QueryResult Nat)) =
      [4, 5, 6] ∧
    collect 2 4
      (QueryResult.begin 2 (⟨some ⟨[4, 5, 6], 3, none⟩⟩ : QueryResult Nat)) =
      [4, 5, 6] ∧
    collect 2 4
      (QueryResult.begin 2 (⟨some ⟨[4, 5, 6], 1, none⟩⟩ : QueryResult Nat)) =
      collect 2 4
        (QueryResult.begin 2 (⟨some ⟨[4, 5, 6], 3, none⟩⟩ : QueryResult Nat)) ∧
    QueryResult.end_ (⟨none⟩ : QueryResult Nat) = ⟨none, [], 0, true⟩ :=
  begin_resets_restartable 2 (by decide) [4, 5, 6] 1 3 ⟨[4, 5, 6], 2, none⟩
    ⟨none⟩

/-- Claim C4: if the underlying property lookup fails, `GetProperty<T>`
returns an empty optional for every target type `T` (every converter `conv`)
including the native-variant type; if the lookup succeeds,
`GetProperty<variant_t>` always returns a value (the looked-up variant). -/
theorem get_property_lookup {β : Type} (o : Object) (name : String)
    (conv : CComVariant → Option β) :
    (o.object_.Get name = none →
      Object.GetProperty o name conv = none ∧
      Object.GetPropertyVariant o name = none) ∧
    (∀ v, o.object_.Get name = some v →
      Object.GetPropertyVariant o name = some v ∧
      Object.GetProperty o name conv = conv v) := by
  unfold Object.GetProperty Object.GetPropertyVariant
  exact ⟨fun h => by simp [h], fun v h => by simp [h]⟩

theorem get_property_lookup_witness :
    (Object.GetProperty emptyObject "NoSuchField" ConvertVariantString =
        none ∧
      Object.GetPropertyVariant emptyObject "NoSuchField" = none) ∧
    Object.GetPropertyVariant presentObject "DeviceID" =
      some ⟨VT_BSTR, some "C:", none⟩ :=
  ⟨(get_property_lookup emptyObject "NoSuchField" ConvertVariantString).1 rfl,
   ((get_property_lookup presentObject "DeviceID" ConvertVariantString).2
      ⟨VT_BSTR, some "C:", none⟩ rfl).1⟩

/-- Claim C5: converting a variant to the string type returns the decoded text
iff the tag is `VT_BSTR` and the `BSTR` payload is non-null; in every other
case (null payload or any non-string tag) the conversion returns an empty
optional — the converter is total, never an error. -/
theorem convert_string_spec (v : CComVariant) (s : String) :
    (ConvertVariantString v = some s ↔
      v.vt = VT_BSTR ∧ v.bstrVal = some s) ∧
    ((v.vt ≠ VT_BSTR ∨ v.bstrVal = none) → ConvertVariantString v = none) := by
  unfold ConvertVariantString ConvertBstrToString
  constructor
  · by_cases h : v.vt = VT_BSTR <;> simp [h]
  · rintro (h | h) <;> simp [h]

theorem convert_string_spec_witness :
    ConvertVariantString ⟨0, some "x", none⟩ = none ∧
    ConvertVariantString ⟨VT_BSTR, some "1024", none⟩ = some "1024" :=
  ⟨(convert_string_spec ⟨0, some "x", none⟩ "x").2 (Or.inl (by decide)),
   (convert_string_spec ⟨VT_BSTR, some "1024", none⟩ "1024").1.mpr ⟨rfl, rfl⟩⟩

/-- Claim C6: converting a variant to sequence-of-string returns an empty
optional unless the tag is `VT_ARRAY | VT_BSTR`; a failure while attaching to
the underlying safe array (`parray = none`) also yields an empty optional
rather than propagating; on success the result is exactly the non-null
elements decoded in their original remote order (null elements are skipped,
reducing the count). -/
theorem convert_vec_string_spec (v : CComVariant) :
    (v.vt ≠ VT_ARRAY_BSTR → ConvertVariantVecString v = none) ∧
    (v.parray = none → ConvertVariantVecString v = none) ∧
    (∀ es, v.vt = VT_ARRAY_BSTR → v.parray = some es →
      ConvertVariantVecString v = some (es.filterMap id)) := by
  unfold ConvertVariantVecString
  refine ⟨fun h => by simp [h], fun h => ?_,
    fun es h1 h2 => by simp [h1, h2]⟩
  by_cases hvt : v.vt = VT_ARRAY_BSTR <;> simp [hvt, h]

theorem convert_vec_string_spec_witness :
    ConvertVariantVecString
        ⟨VT_ARRAY_BSTR, none, some [some "a", none, some "b"]⟩ =
      some ["a", "b"] ∧
    ConvertVariantVecString ⟨VT_BSTR, none, some [some "a"]⟩ = none :=
  ⟨(convert_vec_string_spec
      ⟨VT_ARRAY_BSTR, none, some [some "a", none, some "b"]⟩).2.2
      [some "a", none, some "b"] rfl rfl,
   (convert_vec_string_spec ⟨VT_BSTR, none, some [some "a"]⟩).1 (by decide)⟩

/-- Claim C7: for every target type and every outcome of the underlying cast,
the generic `ConvertVariant` either returns the cast result or returns an
empty optional; each of the three caught failure kinds (`_com_error`,
`std::exception`, unknown fault) is downgraded to an empty optional, and the
converter never propagates an exception (it is a total function into
`Option`). -/
theorem convert_generic_absorbs {β : Type} (cast : CComVariant → CastResult β)
    (v : CComVariant) :
    (∀ x, cast v = CastResult.ok x → ConvertVariant cast v = some x) ∧
    (∀ c, cast v = CastResult.comError c → ConvertVariant cast v = none) ∧
    (∀ m, cast v = CastResult.stdError m → ConvertVariant cast v = none) ∧
    (cast v = CastResult.unknownError → ConvertVariant cast v = none) ∧
    ((∃ x, cast v = CastResult.ok x ∧ ConvertVariant cast v = some x) ∨
      ConvertVariant cast v = none) := by
  unfold ConvertVariant
  cases h : cast v <;> simp [h]

theorem convert_generic_absorbs_witness :
    ConvertVariant (fun _ => (CastResult.unknownError : CastResult Nat))
        ⟨0, none, none⟩ = none ∧
    ConvertVariant (fun _ => CastResult.ok 5) ⟨0, none, none⟩ = some 5 :=
  ⟨(convert_generic_absorbs (fun _ => CastResult.unknownError)
      ⟨0, none, none⟩).2.2.2.1 rfl,
   (convert_generic_absorbs (fun _ => CastResult.ok 5) ⟨0, none, none⟩).1
      5 rfl⟩

/-- Claim C8: a batch fetch that fails (`FAILED` HRESULT) or returns zero
records moves the iterator to the exhausted state: `is_end` is set, the batch
is empty, the index is reset, the iterator compares equal to the end sentinel,
and the iteration yields nothing further — observationally identical to
natural end-of-sequence, and (the embedding being a total function) no
exception reaches the iteration consumer. -/
theorem fetch_failure_is_exhausted {α : Type} (B fuel : Nat)
    (it : Iterator α) (e : Enumerator α) (he : it.enumerator = some e)
    (hfail : (e.Next B).1 = none ∨ (e.Next B).1 = some ([] : List α)) :
    (Iterator.FetchNextBatch B it).is_end = true ∧
    (Iterator.FetchNextBatch B it).batch = [] ∧
    (Iterator.FetchNextBatch B it).current_index = 0 ∧
    Iterator.beq (Iterator.FetchNextBatch B it)
      (QueryResult.end_ (⟨none⟩ : QueryResult α)) = true ∧
    collect B fuel (Iterator.FetchNextBatch B it) = [] := by
  have key : Iterator.FetchNextBatch B it = ⟨some (e.Next B).2, [], 0, true⟩ := by
    rcases hne : e.Next B with ⟨r, e2⟩
    rcases hfail with h | h <;>
      rw [hne] at h <;> simp only at h <;> subst h <;>
      simp [Iterator.FetchNextBatch, he, hne]
  rw [key]
  exact ⟨rfl, rfl, rfl, rfl, collect_of_is_end B fuel _ rfl⟩

theorem fetch_failure_is_exhausted_witness :
    (Iterator.FetchNextBatch 10
        (⟨some ⟨[1, 2, 3], 0, some 0⟩, [], 0, false⟩ : Iterator Nat)).is_end =
      true ∧
    (Iterator.FetchNextBatch 10
        (⟨some ⟨[1, 2, 3], 0, some 0⟩, [], 0, false⟩ : Iterator Nat)).batch =
      [] ∧
    (Iterator.FetchNextBatch 10
        (⟨some ⟨[1, 2, 3], 0, some 0⟩, [], 0,
          false⟩ : Iterator Nat)).current_index = 0 ∧
    Iterator.beq
      (Iterator.FetchNextBatch 10
        (⟨some ⟨[1, 2, 3], 0, some 0⟩, [], 0, false⟩ : Iterator Nat))
      (QueryResult.end_ (⟨none⟩ : QueryResult Nat)) = true ∧
    collect 10 5
      (Iterator.FetchNextBatch 10
        (⟨some ⟨[1, 2, 3], 0, some 0⟩, [], 0, false⟩ : Iterator Nat)) = [] :=
  fetch_failure_is_exhausted 10 5 _ ⟨[1, 2, 3], 0, some 0⟩ rfl (Or.inl rfl)

/-- Claim C9: the exhausted state is terminal.  For `it` an active iterator
standing at the last record of its batch (`idx + 1 = batch.length`) with the
remote cursor past the last record of the store (`L.length ≤ p`, so the next
fetch returns zero records — the last batch), advancing past that last record
sets the end-of-sequence flag exactly once: the flag is not set before the
advance, is set by it, and every subsequent advance keeps it set.  For `itEx`
any iterator whose flag is already set, every advance is a no-op that leaves
the iterator exhausted and unchanged — an iterator never leaves the exhausted
state. -/
theorem exhausted_terminal {α : Type} (B : Nat) (it itEx : Iterator α)
    (L batch : List α) (p idx : Nat)
    (hit : it = ⟨some ⟨L, p, none⟩, batch, idx, false⟩)
    (hidx : idx + 1 = batch.length) (hp : L.length ≤ p)
    (hEx : itEx.is_end = true) :
    it.is_end = false ∧
    (Iterator.inc B it).is_end = true ∧
    Iterator.inc B itEx = itEx ∧
    (∀ n, (Iterator.inc B)^[n] itEx = itEx) ∧
    (∀ n, ((Iterator.inc B)^[n + 1] it).is_end = true) := by
  have noop : ∀ (j : Iterator α), j.is_end = true → Iterator.inc B j = j := by
    intro j hj
    unfold Iterator.inc
    simp [hj]
  have noopIter : ∀ (j : Iterator α), j.is_end = true →
      ∀ n, (Iterator.inc B)^[n] j = j := by
    intro j hj n
    induction n with
    | zero => rfl
    | succ k ih => rw [Function.iterate_succ_apply, noop j hj, ih]
  subst hit
  have hstep :
      Iterator.inc B
        (⟨some ⟨L, p, none⟩, batch, idx, false⟩ : Iterator α) =
        ⟨some ⟨L, p, none⟩, [], 0, true⟩ := by
    have hdrop : L.drop p = [] := List.drop_eq_nil_of_le hp
    rw [inc_active, if_pos (by omega), fetch_no_fail, hdrop]
    simp
  refine ⟨rfl, ?_, noop itEx hEx, noopIter itEx hEx, fun n => ?_⟩
  · rw [hstep]
  · rw [Function.iterate_succ_apply, hstep,
      noopIter ⟨some ⟨L, p, none⟩, [], 0, true⟩ rfl n]

theorem exhausted_terminal_witness :
    (⟨some ⟨[1, 2], 2, none⟩, [1, 2], 1, false⟩ : Iterator Nat).is_end =
      false ∧
    (Iterator.inc 2
      (⟨some ⟨[1, 2], 2, none⟩, [1, 2], 1, false⟩ : Iterator Nat)).is_end =
      true ∧
    Iterator.inc 2 (⟨none, [], 0, true⟩ : Iterator Nat) =
      ⟨none, [], 0, true⟩ ∧
    (Iterator.inc 2)^[3] (⟨none, [], 0, true⟩ : Iterator Nat) =
      ⟨none, [], 0, true⟩ ∧
    ((Iterator.inc 2)^[3]
      (⟨some ⟨[1, 2], 2, none⟩, [1, 2], 1, false⟩ : Iterator Nat)).is_end =
      true := by
  have h := exhausted_terminal 2
    (⟨some ⟨[1, 2], 2, none⟩, [1, 2], 1, false⟩ : Iterator Nat)
    (⟨none, [], 0, true⟩ : Iterator Nat) [1, 2] [1, 2] 2 1 rfl rfl
    (by decide) rfl
  exact ⟨h.1, h.2.1, h.2.2.1, h.2.2.2.1 3, h.2.2.2.2 2⟩

/-- Claim C10: on a `QueryResult` holding a null cursor handle, `begin()`
returns an iterator whose end-of-sequence flag is false and whose batch is
empty; it does not compare equal to `end()`; dereferencing it accesses index 0
of the empty batch, which in this embedding is the `none` branch of the
optional-returning dereference; and a single advance moves it to the exhausted
state. -/
theorem null_cursor_begin {α : Type} (B : Nat) :
    (QueryResult.begin B (⟨none⟩ : QueryResult α)).is_end = false ∧
    (QueryResult.begin B (⟨none⟩ : QueryResult α)).batch = [] ∧
    Iterator.beq (QueryResult.begin B (⟨none⟩ : QueryResult α))
      (QueryResult.end_ (⟨none⟩ : QueryResult α)) = false ∧
    (QueryResult.begin B (⟨none⟩ : QueryResult α)).deref = none ∧
    (Iterator.inc B (QueryResult.begin B (⟨none⟩ : QueryResult α))).is_end =
      true :=
  ⟨rfl, rfl, rfl, rfl, rfl⟩

end wmi
